import Mathlib

/-!
Verification development for the traffic-analytics aggregation engine of
`fpl0.panel` (`src/src-tauri/src/cloudflare.rs`).

Shallow embedding conventions:
* Instants are modelled as `Nat` seconds since the Unix epoch (`chrono`'s UTC
  timeline has no DST and `Duration::days`/`Duration::hours` are exact
  86400 s / 3600 s shifts).  The ISO strings produced by
  `format("%Y-%m-%dT%H:00:00Z")` and `format("%Y-%m-%d")` are injective,
  order-preserving encodings of (hour-start instant in seconds, resp. day
  number); a slot label is therefore modelled as `Except String Nat`:
  `.ok n` is the canonical label for instant/day `n`, `.error s` is a
  response string that is not a canonical label (for the hourly branch: a
  string `parse_from_rfc3339` rejects, used verbatim as key by the source;
  for the daily branch: a raw `date` string differing from every canonical
  `%Y-%m-%d` rendering).  Canonical and non-canonical labels never collide,
  which the sum type makes explicit.
* `u64` arithmetic is modelled by `Nat`: no aggregation step in the source
  can reach `2^64` for realistic analytics counts, so wrap-around is not
  modelled; the one narrowing cast (`as u16` on status codes) is kept as an
  explicit `% 65536`.
* Rust `HashMap` accumulators (`entry(k).or_default() += v`) are modelled as
  association lists updated in place with new keys appended, i.e. the map
  contents are exact and the enumeration order used by `into_iter()` is
  determinized to insertion order (the source's iteration order is
  unspecified; only tie order among equal counts after sorting can depend
  on it).  The `BTreeMap` used for the per-slot accumulator is only ever
  read back by key lookup, so it is modelled as a plain function
  `DKey → Option DayAccum`.
* Fallible JSON field accesses (`as_str`, `as_u64`, `as_array`) are modelled
  by `Option` fields, with the source's `unwrap_or` defaults applied at the
  use site exactly where the source applies them.
* The network is abstracted by a `QueryOutcome` value per query: transport
  failure, body-parse failure, or a parsed response carrying the GraphQL
  `errors` message list and the decoded zone data.  `fetch_analytics` takes
  the outcome of the main query and a function from chunk start offset to
  that chunk's outcome.
-/

deriving instance DecidableEq for Except

namespace Panel

/-- Slot label: `.ok n` encodes the canonical ISO label of hour-start
instant / day number `n`, `.error s` a non-canonical response string. -/
abbrev DKey := Except String Nat

/-- One element of an `httpRequestsAdaptiveGroups` path list
(`count`, `dimensions.clientRequestPath`), fields `Option` for the
`as_str`/`as_u64` fallibility. -/
structure PathEntry where
  path : Option String
  count : Option Nat
deriving DecidableEq

/-- One element of an `httpRequestsAdaptiveGroups` country list. -/
structure CountryEntry where
  country : Option String
  count : Option Nat
deriving DecidableEq

/-- One element of a `responseStatusMap` (`edgeResponseStatus`, `requests`). -/
structure StatusEntry where
  status : Option Nat
  requests : Option Nat
deriving DecidableEq

/-- One element of a `browserMap` (`uaBrowserFamily`, `pageViews`). -/
structure BrowserEntry where
  family : Option String
  pageViews : Option Nat
deriving DecidableEq

/-- One element of the main query's `daily` array.  `datetime` is the hourly
dimension (`.ok t` = RFC3339 string of instant `t`, `.error s` = unparseable
string, the missing-field default being the unparseable `""`); `date` is the
daily dimension; `metric` is the value of the queried metric field
(`pageViews` when engagement, else `requests`). -/
structure MainEntry where
  datetime : Except String Nat
  date : Except String Nat
  metric : Option Nat
  bytes : Option Nat
  cachedBytes : Option Nat
  cachedRequests : Option Nat
  threats : Option Nat
  responseStatusMap : Option (List StatusEntry)
  browserMap : Option (List BrowserEntry)
deriving DecidableEq

/-- Decoded zone object of the main query's response;
`daily` is `None` when `zone["daily"].as_array()` fails. -/
structure MainZone where
  daily : Option (List MainEntry)

/-- Decoded zone object of one breakdown chunk's response: the `pd{d}` and
`cd{d}` alias lookups, indexed by day offset `d`. -/
structure ChunkZone where
  pd : Nat → Option (List PathEntry)
  cd : Nat → Option (List CountryEntry)

/-- Outcome of one network round trip for a GraphQL query, as seen by
`graphql_query`: transport failure, body-parse failure, or a parsed
response with its `errors` message list (`[]` when absent or empty) and
decoded data. -/
inductive QueryOutcome (α : Type) where
  | fetchFail (e : String)
  | parseFail (e : String)
  | response (errors : List (Option String)) (data : α)

/-- Model of `graphql_query` (cloudflare.rs:104-130): propagate transport/parse
failures, turn a non-empty `errors` array into a failure using the first
message, otherwise return the response. -/
def graphql_query {α : Type} : QueryOutcome α → Except String α
  | .fetchFail e => .error ("Failed to fetch analytics: " ++ e)
  | .parseFail e => .error ("Failed to parse analytics response: " ++ e)
  | .response errs data =>
      match errs with
      | [] => .ok data
      | e0 :: _ => .error ("Analytics query failed: " ++ e0.getD "Unknown GraphQL error")

/-- Character-list test that `pre` begins `s` (Rust `str::starts_with`). -/
def charsBegin : List Char → List Char → Bool
  | [], _ => true
  | _ :: _, [] => false
  | a :: as, b :: bs => a = b && charsBegin as bs

/-- Rust `path.trim_end_matches('/')`: drop every trailing `'/'`. -/
def trimEndSlashes (s : String) : String :=
  String.mk ((s.toList.reverse.dropWhile (fun c => c = '/')).reverse)

/-- Model of `is_content_path` (cloudflare.rs:92-101): `/` is content; otherwise the
trailing-slash-trimmed path must begin with `/blog/`, `/apps/`, `/about`
or `/tags`. -/
def is_content_path (path : String) : Bool :=
  if path = "/" then true
  else
    let p := trimEndSlashes path
    charsBegin "/blog/".toList p.toList || charsBegin "/apps/".toList p.toList ||
      charsBegin "/about".toList p.toList || charsBegin "/tags".toList p.toList

/-- Models `HashMap::entry(k).or_default() += v`, on the insertion-ordered
association-list model: add into the existing entry, else append `(k, v)`. -/
def bumpK {K : Type} [DecidableEq K] (m : List (K × Nat)) (k : K) (v : Nat) :
    List (K × Nat) :=
  if m.any (fun p => p.1 = k) then
    m.map (fun p => if p.1 = k then (p.1, p.2 + v) else p)
  else m ++ [(k, v)]

/-- Models `HashMap::get`-style lookup on the association-list model. -/
def lookupN {K : Type} [DecidableEq K] (m : List (K × Nat)) (k : K) : Option Nat :=
  (m.find? (fun p => p.1 = k)).map (fun p => p.2)

/-- Constant `CHUNK_DAYS = 5` (cloudflare.rs:237). -/
def CHUNK_DAYS : Nat := 5

/-- Stepper `(0..days).step_by(5)` (cloudflare.rs:242): the multiples of 5 below
`days`, in increasing order. -/
def stepBy5 (days : Nat) : List Nat :=
  (List.range days).filter (fun i => i % CHUNK_DAYS = 0)

/-- Computes `chunk_end = min(chunk_start + CHUNK_DAYS, days)` (cloudflare.rs:243). -/
def chunkEnd (days cstart : Nat) : Nat := min (cstart + CHUNK_DAYS) days

/-- The `[chunk_start, chunk_end)` day-index ranges the planner covers. -/
def chunkRanges (days : Nat) : List (Nat × Nat) :=
  (stepBy5 days).map (fun s => (s, chunkEnd days s))

/-- The per-path entry step of the chunk loop (cloudflare.rs:292-302):
default the path to `"/"`, skip non-content paths in engagement mode,
else add the (defaulted) count into the path map. -/
def addPathEntry (engagement : Bool) (m : List (String × Nat)) (e : PathEntry) :
    List (String × Nat) :=
  let path := e.path.getD "/"
  if engagement && !is_content_path path then m
  else bumpK m path (e.count.getD 0)

/-- The per-country entry step of the chunk loop (cloudflare.rs:306-314). -/
def addCountryEntry (m : List (String × Nat)) (e : CountryEntry) :
    List (String × Nat) :=
  bumpK m (e.country.getD "Unknown") (e.count.getD 0)

/-- The path-map / country-map accumulator pair. -/
abbrev PCMaps := List (String × Nat) × List (String × Nat)

/-- Day-offset `d` of a succeeded chunk (cloudflare.rs:289-316): fold the
`pd{d}` list into the path map and the `cd{d}` list into the country map
(a failed `as_array` contributes nothing). -/
def addDay (engagement : Bool) (zone : ChunkZone) (maps : PCMaps) (d : Nat) :
    PCMaps :=
  let pm := match zone.pd d with
    | none => maps.1
    | some arr => arr.foldl (addPathEntry engagement) maps.1
  let cm := match zone.cd d with
    | none => maps.2
    | some arr => arr.foldl addCountryEntry maps.2
  (pm, cm)

/-- One iteration of the chunk loop (cloudflare.rs:284-319): a failed query
or a missing zone object leaves both maps unchanged; a succeeded one folds
day offsets `chunk_start..chunk_end`. -/
def processChunk (engagement : Bool) (days cstart : Nat)
    (outcome : QueryOutcome (Option ChunkZone)) (maps : PCMaps) : PCMaps :=
  match graphql_query outcome with
  | .error _ => maps
  | .ok none => maps
  | .ok (some zone) =>
      (List.range' cstart (chunkEnd days cstart - cstart)).foldl
        (addDay engagement zone) maps

/-- The whole chunk loop: fold `processChunk` over the chunk starts,
starting from two empty maps. -/
def pcMapsOf (days : Nat) (engagement : Bool)
    (chunkOutcomes : Nat → QueryOutcome (Option ChunkZone)) : PCMaps :=
  (stepBy5 days).foldl
    (fun maps c => processChunk engagement days c (chunkOutcomes c) maps) ([], [])

/-- Per-slot accumulator (the `DayAccum` struct, cloudflare.rs:322-328). -/
structure DayAccum where
  count : Nat
  bytes : Nat
  cached_bytes : Nat
  cached_requests : Nat
  threats : Nat
deriving DecidableEq

/-- The all-zero accumulator `or_insert`ed for a fresh key. -/
def DayAccum.zero : DayAccum := ⟨0, 0, 0, 0, 0⟩

/-- Instant `t` with minutes and seconds zeroed: the instant of the containing
hour's start, i.e. the `%Y-%m-%dT%H:00:00Z` rendering of `t`. -/
def hourFloor (t : Nat) : Nat := t - t % 3600

/-- Slot key of a main-response element (cloudflare.rs:336-350): hourly, a
parseable `datetime` is truncated to its hour and an unparseable one is
used verbatim; daily, the raw `date` string is the key. -/
def slotKey (isHourly : Bool) (e : MainEntry) : DKey :=
  if isHourly then
    match e.datetime with
    | .ok t => .ok (hourFloor t)
    | .error s => .error s
  else e.date

/-- State of the main-response parse loop: the per-slot map plus the
period-wide status-code and browser tallies. -/
structure SlotState where
  daily : DKey → Option DayAccum
  status : List (Nat × Nat)
  browser : List (String × Nat)

/-- Empty state before the loop (cloudflare.rs:329-332). -/
def initSlot : SlotState := ⟨fun _ => none, [], []⟩

/-- One iteration of the main-response parse loop (cloudflare.rs:334-389):
add the element's (defaulted) metrics into its slot's accumulator, then
fold its `responseStatusMap` (status cast `as u16`) and `browserMap` into
the period-wide tallies. -/
def addMainEntry (isHourly : Bool) (st : SlotState) (e : MainEntry) : SlotState :=
  let key := slotKey isHourly e
  let acc := (st.daily key).getD DayAccum.zero
  let acc' : DayAccum :=
    ⟨acc.count + e.metric.getD 0, acc.bytes + e.bytes.getD 0,
     acc.cached_bytes + e.cachedBytes.getD 0,
     acc.cached_requests + e.cachedRequests.getD 0,
     acc.threats + e.threats.getD 0⟩
  let daily' := fun k => if k = key then some acc' else st.daily k
  let status' := match e.responseStatusMap with
    | none => st.status
    | some arr =>
        arr.foldl (fun m s => bumpK m (s.status.getD 0 % 65536) (s.requests.getD 0))
          st.status
  let browser' := match e.browserMap with
    | none => st.browser
    | some arr =>
        arr.foldl (fun m b => bumpK m (b.family.getD "Unknown") (b.pageViews.getD 0))
          st.browser
  ⟨daily', status', browser'⟩

/-- The whole main-response parse loop. -/
def mainFold (isHourly : Bool) (entries : List MainEntry) : SlotState :=
  entries.foldl (addMainEntry isHourly) initSlot

/-- Mirror of `CfDailyCount` (types.rs:86-94), with the label as a `DKey`. -/
structure CfDailyCount where
  date : DKey
  count : Nat
  uniques : Nat
  bytes : Nat
  cached_bytes : Nat
  cached_requests : Nat
  threats : Nat
deriving DecidableEq

/-- One slot of the built series (cloudflare.rs:396-406 / 413-425):
label plus the accumulated values, every field defaulting to 0 when the
label is absent from the map. -/
def mkSlot (key : DKey) (acc : Option DayAccum) : CfDailyCount :=
  ⟨key, (acc.map (fun a => a.count)).getD 0, 0,
   (acc.map (fun a => a.bytes)).getD 0,
   (acc.map (fun a => a.cached_bytes)).getD 0,
   (acc.map (fun a => a.cached_requests)).getD 0,
   (acc.map (fun a => a.threats)).getD 0⟩

/-- Series builder (cloudflare.rs:392-428).  Hourly: 24 slots labelled by
the hour-starts of `now - (23-i) hours`; daily: `days` slots labelled by
the day numbers of `start + i days` for `start = now - (days-1) days`.
Each label is generated from the period boundaries and looked up in the
map, never taken from the map's keys. -/
def buildSeries (isHourly : Bool) (now days : Nat)
    (dmap : DKey → Option DayAccum) : List CfDailyCount :=
  if isHourly then
    (List.range 24).map (fun i =>
      let key : DKey := .ok (hourFloor (now - 3600 * (23 - i)))
      mkSlot key (dmap key))
  else
    (List.range days).map (fun i =>
      let key : DKey := .ok ((now - 86400 * (days - 1) + 86400 * i) / 86400)
      mkSlot key (dmap key))

/-- Mirror of `CfPathCount` (types.rs:97-100). -/
structure CfPathCount where
  path : String
  count : Nat
deriving DecidableEq

/-- Mirror of `CfCountryCount` (types.rs:103-106). -/
structure CfCountryCount where
  country : String
  count : Nat
deriving DecidableEq

/-- Mirror of `CfStatusCount` (types.rs:109-112); the status is a `u16` so it ranges
below 65536. -/
structure CfStatusCount where
  status : Nat
  count : Nat
deriving DecidableEq

/-- Mirror of `CfBrowserCount` (types.rs:115-118). -/
structure CfBrowserCount where
  browser : String
  page_views : Nat
deriving DecidableEq

/-- Mirror of `CfAnalytics` (types.rs:75-83). -/
structure CfAnalytics where
  period : String
  total_requests : Nat
  daily_requests : List CfDailyCount
  top_paths : List CfPathCount
  top_countries : List CfCountryCount
  status_codes : List CfStatusCount
  browsers : List CfBrowserCount
deriving DecidableEq

/-- Rust `sort_by(|a, b| b.count.cmp(&a.count))`: a stable sort into
non-increasing order of `c`, modelled by Mathlib's stable insertion sort. -/
def sortByDesc {α : Type} (c : α → Nat) (l : List α) : List α :=
  List.insertionSort (fun a b => c b ≤ c a) l

/-- The `status_codes` assembly (cloudflare.rs:432-437). -/
def statusCodesOf (m : List (Nat × Nat)) : List CfStatusCount :=
  (sortByDesc CfStatusCount.count (m.map (fun p => CfStatusCount.mk p.1 p.2))).take 10

/-- The `browsers` assembly (cloudflare.rs:439-444). -/
def browsersOf (m : List (String × Nat)) : List CfBrowserCount :=
  (sortByDesc CfBrowserCount.page_views
    (m.map (fun p => CfBrowserCount.mk p.1 p.2))).take 10

/-- The `top_countries` assembly (cloudflare.rs:447-452). -/
def topCountriesOf (m : List (String × Nat)) : List CfCountryCount :=
  (sortByDesc CfCountryCount.count (m.map (fun p => CfCountryCount.mk p.1 p.2))).take 10

/-- The `top_paths` assembly (cloudflare.rs:455-460). -/
def topPathsOf (m : List (String × Nat)) : List CfPathCount :=
  (sortByDesc CfPathCount.count (m.map (fun p => CfPathCount.mk p.1 p.2))).take 10

/-- Report assembly (cloudflare.rs:391-471): build the series, total its
counts, sort-and-truncate the four breakdown maps. -/
def assemble (now days : Nat) (isHourly : Bool) (st : SlotState) (pc : PCMaps) :
    CfAnalytics :=
  let daily_requests := buildSeries isHourly now days st.daily
  ⟨toString days ++ "d",
   (daily_requests.map (fun s => s.count)).sum,
   daily_requests,
   topPathsOf pc.1,
   topCountriesOf pc.2,
   statusCodesOf st.status,
   browsersOf st.browser⟩

/-- Model of `fetch_analytics` (cloudflare.rs:142-471) over the abstracted network:
the main query's failure (or a missing zone object) is fatal; otherwise the
chunk loop and the main-response parse feed the assembler.  `now` is the
call's current instant in epoch seconds. -/
def fetch_analytics (now days : Nat) (engagement : Bool)
    (mainOutcome : QueryOutcome (Option MainZone))
    (chunkOutcomes : Nat → QueryOutcome (Option ChunkZone)) :
    Except String CfAnalytics :=
  match graphql_query mainOutcome with
  | .error e => .error e
  | .ok none => .error "No zone data returned"
  | .ok (some z) =>
      let pc := pcMapsOf days engagement chunkOutcomes
      let st := mainFold (days == 1) (z.daily.getD [])
      .ok (assemble now days (days == 1) st pc)

end Panel

namespace Panel

/-- Stepper `(0..days).step_by(5)` enumerates `0, 5, …`: closed form as a `map`
over `range ⌈days/5⌉`. -/
theorem stepBy5_eq (days : Nat) :
    stepBy5 days = (List.range ((days + 4) / 5)).map (fun i => i * 5) := by
  induction days with
  | zero => rfl
  | succ n ih =>
    by_cases h : n % 5 = 0
    · have h1 : (n + 1 + 4) / 5 = (n + 4) / 5 + 1 := by omega
      have h2 : (n + 4) / 5 * 5 = n := by omega
      simp only [stepBy5, CHUNK_DAYS, List.range_succ, List.filter_append] at ih ⊢
      rw [h1, List.range_succ, List.map_append, ← ih]
      simp [h, h2]
    · have h1 : (n + 1 + 4) / 5 = (n + 4) / 5 := by omega
      simp only [stepBy5, CHUNK_DAYS, List.range_succ, List.filter_append] at ih ⊢
      rw [h1, ← ih]
      simp [h]

/-- Closed form for the planner's chunk ranges. -/
theorem chunkRanges_eq (days : Nat) :
    chunkRanges days =
      (List.range ((days + 4) / 5)).map (fun i => (i * 5, min (i * 5 + 5) days)) := by
  rw [chunkRanges, stepBy5_eq, List.map_map]
  simp [Function.comp, chunkEnd, CHUNK_DAYS]

end Panel

namespace Panel

/-- C7: the planner partitions the `days`-day period into consecutive
chunks of nominal size 5 with only the final chunk possibly shorter; for
`days = 12` it produces exactly the ranges `[0,5)`, `[5,10)`, `[10,12)`,
the last strictly smaller than 5. -/
theorem chunk_plan_partition (days : Nat) (hd : 1 ≤ days) :
    (chunkRanges 12 = [(0, 5), (5, 10), (10, 12)] ∧ 12 - 10 < 5) ∧
    (chunkRanges days).length = (days + 4) / 5 ∧
    (chunkRanges days).head? = some (0, min 5 days) ∧
    ((chunkRanges days).getLast?.map Prod.snd) = some days ∧
    (∀ i (h1 : i < (chunkRanges days).length)
        (h2 : i + 1 < (chunkRanges days).length),
      ((chunkRanges days).get ⟨i, h1⟩).2 = ((chunkRanges days).get ⟨i + 1, h2⟩).1) ∧
    (∀ p ∈ chunkRanges days,
      p.1 < p.2 ∧ p.2 - p.1 ≤ 5 ∧ (p.2 ≠ days → p.2 - p.1 = 5)) := by
  have hc := chunkRanges_eq days
  have hN : 1 ≤ (days + 4) / 5 := by omega
  have hlen : (chunkRanges days).length = (days + 4) / 5 := by
    rw [hc]; simp
  refine ⟨⟨by decide, by decide⟩, hlen, ?_, ?_, ?_, ?_⟩
  · obtain ⟨m, hm⟩ : ∃ m, (days + 4) / 5 = m + 1 := ⟨(days + 4) / 5 - 1, by omega⟩
    rw [hc, hm, List.range_succ_eq_map]
    simp
  · obtain ⟨m, hm⟩ : ∃ m, (days + 4) / 5 = m + 1 := ⟨(days + 4) / 5 - 1, by omega⟩
    have hmin : min (m * 5 + 5) days = days := by omega
    rw [hc, hm, List.range_succ, List.map_append]
    simp [hmin]
  · intro i h1 h2
    rw [hlen] at h1 h2
    simp only [hc, List.get_eq_getElem, List.getElem_map, List.getElem_range]
    omega
  · intro p hp
    rw [hc] at hp
    obtain ⟨i, hi, rfl⟩ := List.mem_map.mp hp
    rw [List.mem_range] at hi
    refine ⟨by omega, by omega, by omega⟩

/-- Witness for C7 at `days = 12`. -/
theorem chunk_plan_partition_witness :
    1 ≤ 12 ∧ chunkRanges 12 = [(0, 5), (5, 10), (10, 12)] :=
  ⟨by decide, (chunk_plan_partition 12 (by decide)).1.1⟩

/-- C10: after trailing-slash trimming, any extension of the bare prefixes
`/about` and `/tags` is a content path (including the section indexes and
unrelated `/tagsXYZ`), while the blog/apps sections require the
slash-terminated prefixes `/blog/`, `/apps/`, so their section indexes are
not content paths. -/
theorem content_path_asymmetry :
    is_content_path "/about" = true ∧ is_content_path "/tags" = true ∧
    is_content_path "/tagsXYZ" = true ∧
    is_content_path "/blog" = false ∧ is_content_path "/blog/" = false ∧
    is_content_path "/apps" = false ∧ is_content_path "/apps/" = false := by
  decide

/-- C6: the content-path predicate accepts `/`, `/blog/my-post`,
`/blog/my-post/`, `/about`, `/about-team`, `/tags/rust` and rejects
`/assets/logo.png`, `/api/health`; and in engagement mode a path entry
failing the predicate leaves the path accumulator untouched, whatever its
count. -/
theorem content_path_engagement_filter :
    is_content_path "/" = true ∧ is_content_path "/blog/my-post" = true ∧
    is_content_path "/blog/my-post/" = true ∧ is_content_path "/about" = true ∧
    is_content_path "/about-team" = true ∧ is_content_path "/tags/rust" = true ∧
    is_content_path "/assets/logo.png" = false ∧
    is_content_path "/api/health" = false ∧
    ∀ (m : List (String × Nat)) (e : PathEntry),
      is_content_path (e.path.getD "/") = false → addPathEntry true m e = m := by
  refine ⟨by decide, by decide, by decide, by decide, by decide, by decide,
    by decide, by decide, ?_⟩
  intro m e h
  simp [addPathEntry, h]

/-- Witness for C6: the spec's own example, `/assets/x.png` with count 50
against a map holding `/blog/a ↦ 10`. -/
theorem content_path_engagement_filter_witness :
    is_content_path ((some "/assets/x.png").getD "/") = false ∧
    addPathEntry true [("/blog/a", 10)] ⟨some "/assets/x.png", some 50⟩ =
      [("/blog/a", 10)] :=
  ⟨by decide,
   content_path_engagement_filter.2.2.2.2.2.2.2.2 _ _ (by decide)⟩

end Panel

namespace Panel

/-- A call returns a report exactly when the main query returned a zone
object, and the report is then the assembled value. -/
theorem fetch_ok_iff (now days : Nat) (engagement : Bool)
    (mo : QueryOutcome (Option MainZone))
    (co : Nat → QueryOutcome (Option ChunkZone)) (r : CfAnalytics) :
    fetch_analytics now days engagement mo co = .ok r ↔
      ∃ z, graphql_query mo = .ok (some z) ∧
        r = assemble now days (days == 1) (mainFold (days == 1) (z.daily.getD []))
              (pcMapsOf days engagement co) := by
  rcases hq : graphql_query mo with e | oz
  · simp [fetch_analytics, hq]
  · rcases oz with _ | z
    · simp [fetch_analytics, hq]
    · simp [fetch_analytics, hq, eq_comm]

/-- Concrete two-day, empty-upstream call used by several witnesses. -/
def emptyTwoDayReport : CfAnalytics :=
  ⟨"2d", 0, [⟨.ok 1, 0, 0, 0, 0, 0, 0⟩, ⟨.ok 2, 0, 0, 0, 0, 0, 0⟩],
   [], [], [], []⟩

/-- C2: the total of every returned report is the exact sum of the counts
of its series slots. -/
theorem total_requests_is_sum (now days : Nat) (engagement : Bool)
    (mo : QueryOutcome (Option MainZone))
    (co : Nat → QueryOutcome (Option ChunkZone)) (r : CfAnalytics)
    (h : fetch_analytics now days engagement mo co = .ok r) :
    r.total_requests = (r.daily_requests.map (fun s => s.count)).sum := by
  obtain ⟨z, hz, rfl⟩ := (fetch_ok_iff now days engagement mo co r).mp h
  rfl

/-- Witness for C2: a concrete two-day call. -/
theorem total_requests_is_sum_witness :
    fetch_analytics 172800 2 false (.response [] (some ⟨some []⟩))
        (fun _ => .fetchFail "x") = .ok emptyTwoDayReport ∧
    emptyTwoDayReport.total_requests =
      (emptyTwoDayReport.daily_requests.map (fun s => s.count)).sum :=
  ⟨by decide,
   total_requests_is_sum 172800 2 false (.response [] (some ⟨some []⟩))
     (fun _ => .fetchFail "x") emptyTwoDayReport (by decide)⟩

/-- A descending stable sort is `Pairwise`-sorted non-increasingly. -/
theorem pairwise_sortByDesc {α : Type} (c : α → Nat) (l : List α) :
    (sortByDesc c l).Pairwise (fun a b => c b ≤ c a) := by
  haveI : IsTotal α (fun a b => c b ≤ c a) := ⟨fun a b => le_total (c b) (c a)⟩
  haveI : IsTrans α (fun a b => c b ≤ c a) := ⟨fun _ _ _ h1 h2 => le_trans h2 h1⟩
  simpa [List.Sorted] using List.sorted_insertionSort (fun a b => c b ≤ c a) l

/-- Sort-then-truncate yields at most 10 elements, still sorted. -/
theorem sortTake_spec {α : Type} (c : α → Nat) (l : List α) :
    ((sortByDesc c l).take 10).length ≤ 10 ∧
    ((sortByDesc c l).take 10).Pairwise (fun a b => c b ≤ c a) :=
  ⟨by rw [List.length_take]; exact min_le_left _ _,
   (pairwise_sortByDesc c l).sublist (List.take_sublist 10 _)⟩

/-- C3: the four breakdown lists of every returned report have at most 10
entries and are sorted by count in non-increasing order. -/
theorem breakdown_lists_sorted_bounded (now days : Nat) (engagement : Bool)
    (mo : QueryOutcome (Option MainZone))
    (co : Nat → QueryOutcome (Option ChunkZone)) (r : CfAnalytics)
    (h : fetch_analytics now days engagement mo co = .ok r) :
    (r.top_paths.length ≤ 10 ∧
      r.top_paths.Pairwise (fun a b => b.count ≤ a.count)) ∧
    (r.top_countries.length ≤ 10 ∧
      r.top_countries.Pairwise (fun a b => b.count ≤ a.count)) ∧
    (r.status_codes.length ≤ 10 ∧
      r.status_codes.Pairwise (fun a b => b.count ≤ a.count)) ∧
    (r.browsers.length ≤ 10 ∧
      r.browsers.Pairwise (fun a b => b.page_views ≤ a.page_views)) := by
  obtain ⟨z, hz, rfl⟩ := (fetch_ok_iff now days engagement mo co r).mp h
  exact ⟨sortTake_spec CfPathCount.count _, sortTake_spec CfCountryCount.count _,
    sortTake_spec CfStatusCount.count _, sortTake_spec CfBrowserCount.page_views _⟩

/-- Witness for C3: a concrete call with a non-trivial breakdown. -/
theorem breakdown_lists_sorted_bounded_witness :
    (fetch_analytics 172800 2 false
        (.response [] (some ⟨some [⟨.error "", .ok 2, some 7, some 1, none, none,
           none, some [⟨some 200, some 7⟩], none⟩]⟩))
        (fun _ => .response []
          (some ⟨fun d => if d = 0 then some [⟨some "/blog/a", some 3⟩] else none,
            fun _ => none⟩))).isOk = true ∧
    ∀ r, fetch_analytics 172800 2 false
        (.response [] (some ⟨some [⟨.error "", .ok 2, some 7, some 1, none, none,
           none, some [⟨some 200, some 7⟩], none⟩]⟩))
        (fun _ => .response []
          (some ⟨fun d => if d = 0 then some [⟨some "/blog/a", some 3⟩] else none,
            fun _ => none⟩)) = .ok r →
      r.top_paths.length ≤ 10 ∧
      r.top_paths.Pairwise (fun a b => b.count ≤ a.count) :=
  ⟨by decide, fun r h => (breakdown_lists_sorted_bounded 172800 2 false _ _ r h).1⟩

end Panel

namespace Panel

/-- The instant/day a canonical label encodes (0 for junk labels). -/
def dkeyTime : DKey → Nat
  | .ok n => n
  | .error _ => 0

/-- The per-slot map the main response produced, as consumed by the series
builder (`fun _ => none` when the call fails before parsing). -/
def mainDailyMap (isHourly : Bool) (mo : QueryOutcome (Option MainZone)) :
    DKey → Option DayAccum :=
  match graphql_query mo with
  | .ok (some z) => (mainFold isHourly (z.daily.getD [])).daily
  | _ => fun _ => none

/-- The hourly series labels are the 24 consecutive hour-starts ending at
`now`'s hour, whatever the slot map contains. -/
theorem buildSeries_hourly_dates (now : Nat) (days : Nat)
    (dmap : DKey → Option DayAccum) (hnow : 3600 * 23 ≤ now) :
    (buildSeries true now days dmap).map (fun s => s.date) =
      (List.range 24).map (fun i => Except.ok (hourFloor now - 3600 * (23 - i))) := by
  simp only [buildSeries, if_true, List.map_map]
  apply List.map_congr_left
  intro i hi
  rw [List.mem_range] at hi
  simp only [Function.comp, mkSlot, hourFloor]
  congr 1
  omega

/-- The daily series labels are the `days` consecutive day numbers ending
on `now`'s day, whatever the slot map contains. -/
theorem buildSeries_daily_dates (now days : Nat)
    (dmap : DKey → Option DayAccum) (hnow : 86400 * days ≤ now) :
    (buildSeries false now days dmap).map (fun s => s.date) =
      (List.range days).map (fun i => Except.ok (now / 86400 - (days - 1) + i)) := by
  simp only [buildSeries, Bool.false_eq_true, if_false, List.map_map]
  apply List.map_congr_left
  intro i hi
  rw [List.mem_range] at hi
  simp only [Function.comp, mkSlot]
  congr 1
  omega

end Panel

namespace Panel

/-- Distinct labels follow from strictly increasing label times. -/
theorem nodup_of_time_pairwise (l : List CfDailyCount)
    (h : (l.map (fun s => dkeyTime s.date)).Pairwise (· < ·)) :
    (l.map (fun s => s.date)).Nodup := by
  rw [List.pairwise_map] at h
  have h' : l.Pairwise (fun a b => a.date ≠ b.date) :=
    h.imp (fun hab heq => by rw [heq] at hab; exact lt_irrefl _ hab)
  rw [List.Nodup, List.pairwise_map]
  exact h'

/-- A series whose labels are `.ok ∘ f` over `range n` for strictly
monotone `f` has strictly increasing label times. -/
theorem pairwise_lt_of_map_range (l : List CfDailyCount) (n : Nat) (f : Nat → Nat)
    (hmono : ∀ i j, i < j → j < n → f i < f j)
    (hd : l.map (fun s => s.date) = (List.range n).map (fun i => Except.ok (f i))) :
    (l.map (fun s => dkeyTime s.date)).Pairwise (· < ·) := by
  have heq : l.map (fun s => dkeyTime s.date) = (List.range n).map f := by
    calc l.map (fun s => dkeyTime s.date)
        = (l.map (fun s => s.date)).map dkeyTime := by rw [List.map_map]; rfl
      _ = ((List.range n).map (fun i => Except.ok (f i))).map dkeyTime := by rw [hd]
      _ = (List.range n).map f := by rw [List.map_map]; rfl
  rw [heq, List.pairwise_iff_getElem]
  intro i j hi hj hij
  simp only [List.length_map, List.length_range] at hi hj
  simp only [List.getElem_map, List.getElem_range]
  exact hmono i j hij hj

/-- C1: every returned report's series has exactly 24 hourly slots when
`days = 1` and exactly `days` daily slots ending on the call's current day
when `days > 1`; labels are the consecutive hour-starts / day numbers
generated from the period boundaries, so they are chronological and
duplicate-free whatever labels the upstream response contained, and a
label absent from the accumulated map yields an all-zero slot. -/
theorem series_shape (now days : Nat) (engagement : Bool)
    (mo : QueryOutcome (Option MainZone))
    (co : Nat → QueryOutcome (Option ChunkZone)) (r : CfAnalytics)
    (hnow : 86400 * days ≤ now)
    (h : fetch_analytics now days engagement mo co = .ok r) :
    (days = 1 →
      r.daily_requests.map (fun s => s.date) =
        (List.range 24).map (fun i => Except.ok (hourFloor now - 3600 * (23 - i))) ∧
      r.daily_requests.length = 24 ∧
      (r.daily_requests.map (fun s => dkeyTime s.date)).Pairwise (· < ·) ∧
      (r.daily_requests.map (fun s => s.date)).Nodup) ∧
    (1 < days →
      r.daily_requests.map (fun s => s.date) =
        (List.range days).map (fun i => Except.ok (now / 86400 - (days - 1) + i)) ∧
      r.daily_requests.length = days ∧
      (r.daily_requests.map (fun s => dkeyTime s.date)).Pairwise (· < ·) ∧
      (r.daily_requests.map (fun s => s.date)).Nodup ∧
      (r.daily_requests.map (fun s => s.date)).getLast? =
        some (Except.ok (now / 86400))) ∧
    (∀ s ∈ r.daily_requests,
      mainDailyMap (days == 1) mo s.date = none →
      s.count = 0 ∧ s.bytes = 0 ∧ s.cached_bytes = 0 ∧
      s.cached_requests = 0 ∧ s.threats = 0) := by
  obtain ⟨z, hz, rfl⟩ := (fetch_ok_iff now days engagement mo co r).mp h
  have hdm : mainDailyMap (days == 1) mo =
      (mainFold (days == 1) (z.daily.getD [])).daily := by
    simp [mainDailyMap, hz]
  have hser : (assemble now days (days == 1)
        (mainFold (days == 1) (z.daily.getD []))
        (pcMapsOf days engagement co)).daily_requests
      = buildSeries (days == 1) now days
          (mainFold (days == 1) (z.daily.getD [])).daily := rfl
  refine ⟨?_, ?_, ?_⟩
  · intro hd
    subst hd
    have hdates : ((assemble now 1 (1 == 1) (mainFold (1 == 1) (z.daily.getD []))
          (pcMapsOf 1 engagement co)).daily_requests).map (fun s => s.date) =
        (List.range 24).map (fun i => Except.ok (hourFloor now - 3600 * (23 - i))) := by
      rw [hser]
      exact buildSeries_hourly_dates now 1 _ (by omega)
    have hpw := pairwise_lt_of_map_range _ 24 (fun i => hourFloor now - 3600 * (23 - i))
      (by intro i j hij hj; simp only [hourFloor]; omega) hdates
    refine ⟨hdates, ?_, hpw, nodup_of_time_pairwise _ hpw⟩
    have := congrArg List.length hdates
    simpa using this
  · intro hd
    have hb : (days == 1) = false := by
      simp only [beq_eq_false_iff_ne, ne_eq]
      omega
    have hdates : ((assemble now days (days == 1)
          (mainFold (days == 1) (z.daily.getD []))
          (pcMapsOf days engagement co)).daily_requests).map (fun s => s.date) =
        (List.range days).map (fun i => Except.ok (now / 86400 - (days - 1) + i)) := by
      rw [hser, hb]
      exact buildSeries_daily_dates now days _ hnow
    have hpw := pairwise_lt_of_map_range _ days (fun i => now / 86400 - (days - 1) + i)
      (by intro i j hij hj; dsimp only; omega) hdates
    refine ⟨hdates, ?_, hpw, nodup_of_time_pairwise _ hpw, ?_⟩
    · have := congrArg List.length hdates
      simpa using this
    · rw [hdates]
      obtain ⟨m, hm⟩ : ∃ m, days = m + 1 := ⟨days - 1, by omega⟩
      subst hm
      rw [List.range_succ, List.map_append]
      simp only [List.map_cons, List.map_nil, List.getLast?_concat]
      simp only [Option.some.injEq, Except.ok.injEq]
      omega
  · intro s hs hnone
    rw [hdm] at hnone
    rw [hser] at hs
    unfold buildSeries at hs
    split at hs <;>
      · obtain ⟨i, hi, rfl⟩ := List.mem_map.mp hs
        simp only [mkSlot] at hnone ⊢
        rw [hnone]
        simp

end Panel

namespace Panel

/-- Witness for C1 at a concrete two-day call. -/
theorem series_shape_witness :
    86400 * 2 ≤ 172800 ∧ emptyTwoDayReport.daily_requests.length = 2 :=
  ⟨by decide,
   (((series_shape 172800 2 false (.response [] (some ⟨some []⟩))
       (fun _ => .fetchFail "x") emptyTwoDayReport (by decide) (by decide)).2.1)
     (by decide)).2.1⟩

/-- C4: a failing main query — transport error, parse error, or an
API-reported error in the response's `errors` list — fails the whole call
with an error and produces no report, for every `days` and `engagement`. -/
theorem main_query_failure_fatal (now days : Nat) (engagement : Bool)
    (co : Nat → QueryOutcome (Option ChunkZone)) :
    (∀ e, fetch_analytics now days engagement (.fetchFail e) co =
      .error ("Failed to fetch analytics: " ++ e)) ∧
    (∀ e, fetch_analytics now days engagement (.parseFail e) co =
      .error ("Failed to parse analytics response: " ++ e)) ∧
    (∀ m rest data,
      fetch_analytics now days engagement (.response (m :: rest) data) co =
        .error ("Analytics query failed: " ++ m.getD "Unknown GraphQL error")) :=
  ⟨fun _ => rfl, fun _ => rfl, fun _ _ _ => rfl⟩

/-- Pointwise-equal step functions fold equally. -/
theorem foldl_fun_congr {α β : Type} (f g : β → α → β) (l : List α) (b : β)
    (h : ∀ a ∈ l, ∀ x, f x a = g x a) : l.foldl f b = l.foldl g b := by
  induction l generalizing b with
  | nil => rfl
  | cons a t ih =>
    rw [List.foldl_cons, List.foldl_cons, h a (List.mem_cons_self a t)]
    exact ih _ (fun a' ha' x => h a' (List.mem_cons_of_mem _ ha') x)

/-- C5: when the main query succeeded, a breakdown chunk's failure does not
fail the call: a report is still produced; its series, total, status codes
and browsers are exactly those of the fully-succeeding call; and the
path/country maps are those of the run in which the failed chunk returned
an empty response (contributing nothing), the other chunks unchanged. -/
theorem chunk_failure_isolated (now days : Nat) (engagement : Bool)
    (mo : QueryOutcome (Option MainZone)) (z : MainZone)
    (co co' : Nat → QueryOutcome (Option ChunkZone)) (c0 : Nat)
    (hmain : graphql_query mo = .ok (some z))
    (hfail : ∃ e, graphql_query (co' c0) = .error e)
    (hagree : ∀ c, c ≠ c0 → co' c = co c) :
    ∃ r', fetch_analytics now days engagement mo co' = .ok r' ∧
      (∀ r, fetch_analytics now days engagement mo co = .ok r →
        r'.daily_requests = r.daily_requests ∧
        r'.total_requests = r.total_requests ∧
        r'.status_codes = r.status_codes ∧
        r'.browsers = r.browsers) ∧
      pcMapsOf days engagement co' =
        pcMapsOf days engagement
          (Function.update co c0 (QueryOutcome.response [] none)) := by
  obtain ⟨e0, he0⟩ := hfail
  refine ⟨assemble now days (days == 1) (mainFold (days == 1) (z.daily.getD []))
      (pcMapsOf days engagement co'), ?_, ?_, ?_⟩
  · exact (fetch_ok_iff now days engagement mo co' _).mpr ⟨z, hmain, rfl⟩
  · intro r hr
    obtain ⟨z', hz', rfl⟩ := (fetch_ok_iff now days engagement mo co r).mp hr
    have hzz : z' = z := by
      have := hz'.symm.trans hmain
      simp only [Except.ok.injEq, Option.some.injEq] at this
      exact this
    subst hzz
    exact ⟨rfl, rfl, rfl, rfl⟩
  · unfold pcMapsOf
    apply foldl_fun_congr
    intro c _ maps
    by_cases hcc : c = c0
    · subst hcc
      have h1 : processChunk engagement days c (co' c) maps = maps := by
        unfold processChunk
        rw [he0]
      have h2 : processChunk engagement days c
          (Function.update co c (QueryOutcome.response [] none) c) maps = maps := by
        rw [Function.update_same]
        rfl
      rw [h1, h2]
    · rw [hagree c hcc, Function.update_noteq hcc]

/-- Concrete all-succeeding chunk outcomes used by the C5 witness. -/
def wCo : Nat → QueryOutcome (Option ChunkZone) :=
  fun _ => .response []
    (some ⟨fun _ => some [⟨some "/a", some 1⟩], fun _ => none⟩)

/-- Variant of `wCo` with the first chunk's response made unparseable. -/
def wCo' : Nat → QueryOutcome (Option ChunkZone) :=
  fun c => if c = 0 then .parseFail "bad" else wCo c

/-- Witness for C5 at a concrete seven-day call whose first chunk fails. -/
theorem chunk_failure_isolated_witness :
    (∃ e, graphql_query (wCo' 0) = .error e) ∧
    (∃ r', fetch_analytics 172800 7 false (.response [] (some ⟨some []⟩)) wCo' =
        .ok r' ∧
      (∀ r, fetch_analytics 172800 7 false (.response [] (some ⟨some []⟩)) wCo =
          .ok r →
        r'.daily_requests = r.daily_requests ∧
        r'.total_requests = r.total_requests ∧
        r'.status_codes = r.status_codes ∧
        r'.browsers = r.browsers) ∧
      pcMapsOf 7 false wCo' =
        pcMapsOf 7 false (Function.update wCo 0 (QueryOutcome.response [] none))) :=
  ⟨⟨"Failed to parse analytics response: bad", rfl⟩,
   chunk_failure_isolated 172800 7 false (.response [] (some ⟨some []⟩)) ⟨some []⟩
     wCo wCo' 0 rfl ⟨"Failed to parse analytics response: bad", rfl⟩
     (fun c hc => by simp [wCo', hc])⟩

end Panel

namespace Panel

/-- The values one main-response element adds into its slot (the parse
loop's `unwrap_or(0)` defaults applied). -/
def entryAccum (e : MainEntry) : DayAccum :=
  ⟨e.metric.getD 0, e.bytes.getD 0, e.cachedBytes.getD 0,
   e.cachedRequests.getD 0, e.threats.getD 0⟩

/-- Field-wise addition of accumulators. -/
def DayAccum.add (a b : DayAccum) : DayAccum :=
  ⟨a.count + b.count, a.bytes + b.bytes, a.cached_bytes + b.cached_bytes,
   a.cached_requests + b.cached_requests, a.threats + b.threats⟩

/-- Field-wise sums over a list of main-response elements. -/
def sumAccum (es : List MainEntry) : DayAccum :=
  ⟨(es.map (fun e => e.metric.getD 0)).sum,
   (es.map (fun e => e.bytes.getD 0)).sum,
   (es.map (fun e => e.cachedBytes.getD 0)).sum,
   (es.map (fun e => e.cachedRequests.getD 0)).sum,
   (es.map (fun e => e.threats.getD 0)).sum⟩

theorem DayAccum.zero_add (a : DayAccum) : DayAccum.add DayAccum.zero a = a := by
  cases a
  simp [DayAccum.add, DayAccum.zero]

theorem DayAccum.add_zero (a : DayAccum) : DayAccum.add a DayAccum.zero = a := by
  cases a
  simp [DayAccum.add, DayAccum.zero]

theorem DayAccum.add_assoc (a b c : DayAccum) :
    DayAccum.add (DayAccum.add a b) c = DayAccum.add a (DayAccum.add b c) := by
  cases a; cases b; cases c
  simp [DayAccum.add, Nat.add_assoc]

theorem sumAccum_nil : sumAccum [] = DayAccum.zero := rfl

theorem sumAccum_cons (e : MainEntry) (l : List MainEntry) :
    sumAccum (e :: l) = DayAccum.add (entryAccum e) (sumAccum l) := by
  simp [sumAccum, entryAccum, DayAccum.add]

/-- How one loop iteration changes the slot map: the entry's slot gets the
entry's values added onto its current accumulator, all other keys keep
their value. -/
theorem addMainEntry_daily (isHourly : Bool) (st : SlotState) (e : MainEntry)
    (k : DKey) :
    (addMainEntry isHourly st e).daily k =
      if k = slotKey isHourly e then
        some (DayAccum.add ((st.daily (slotKey isHourly e)).getD DayAccum.zero)
          (entryAccum e))
      else st.daily k := rfl

/-- Lookup characterization of the whole parse loop from any start state:
the slot at `k` accumulates the field-wise sum of exactly the entries
whose slot key is `k`. -/
theorem foldl_addMainEntry_daily (isHourly : Bool) (entries : List MainEntry)
    (st : SlotState) (k : DKey) :
    (entries.foldl (addMainEntry isHourly) st).daily k =
      (if (entries.filter (fun e => slotKey isHourly e = k)).isEmpty
       then st.daily k
       else some (DayAccum.add ((st.daily k).getD DayAccum.zero)
         (sumAccum (entries.filter (fun e => slotKey isHourly e = k))))) := by
  induction entries generalizing st with
  | nil => simp
  | cons e es ih =>
    rw [List.foldl_cons, ih]
    by_cases he : slotKey isHourly e = k
    · have hf : (e :: es).filter (fun e => slotKey isHourly e = k) =
          e :: es.filter (fun e => slotKey isHourly e = k) := by
        simp [List.filter_cons, he]
      have hst : (addMainEntry isHourly st e).daily k =
          some (DayAccum.add ((st.daily k).getD DayAccum.zero) (entryAccum e)) := by
        rw [addMainEntry_daily, if_pos he.symm, he]
      rw [hf]
      by_cases hemp : (es.filter (fun e => slotKey isHourly e = k)).isEmpty
      · rw [if_pos hemp, if_neg (by simp), hst]
        have : es.filter (fun e => slotKey isHourly e = k) = [] :=
          List.isEmpty_iff.mp hemp
        rw [this, sumAccum_cons, sumAccum_nil, DayAccum.add_zero]
      · rw [if_neg hemp, if_neg (by simp), hst, sumAccum_cons]
        simp only [Option.getD_some]
        rw [DayAccum.add_assoc]
    · have hf : (e :: es).filter (fun e => slotKey isHourly e = k) =
          es.filter (fun e => slotKey isHourly e = k) := by
        simp [List.filter_cons, he]
      have hst : (addMainEntry isHourly st e).daily k = st.daily k := by
        rw [addMainEntry_daily, if_neg (fun hk => he hk.symm)]
      rw [hf, hst]

/-- C8: hourly granularity normalizes each parsed timestamp to its
containing hour — minutes and seconds zeroed — before using it as the slot
key, and a slot holds the field-wise sum (count, bytes, cached bytes,
cached requests, threats) of all raw entries mapping to that hour key. -/
theorem hourly_slot_normalization :
    (∀ (t : Nat) (da : Except String Nat) (c b cb cr th : Option Nat)
        (rs : Option (List StatusEntry)) (bm : Option (List BrowserEntry)),
      slotKey true ⟨.ok t, da, c, b, cb, cr, th, rs, bm⟩ = .ok (t - t % 3600)) ∧
    (∀ (entries : List MainEntry) (k : DKey),
      (mainFold true entries).daily k =
        (if (entries.filter (fun e => slotKey true e = k)).isEmpty then none
         else some (sumAccum (entries.filter (fun e => slotKey true e = k))))) := by
  constructor
  · intro t da c b cb cr th rs bm
    rfl
  · intro entries k
    rw [mainFold, foldl_addMainEntry_daily]
    by_cases hemp : (entries.filter (fun e => slotKey true e = k)).isEmpty
    · rw [if_pos hemp, if_pos hemp]
      rfl
    · rw [if_neg hemp, if_neg hemp]
      have : (initSlot.daily k).getD DayAccum.zero = DayAccum.zero := rfl
      rw [this, DayAccum.zero_add]

end Panel

namespace Panel

/-- The (path, count) additions one `pd{d}` list performs, in order
(engagement filter applied, defaults applied). -/
def pathPairsOfList (engagement : Bool) (arr : List PathEntry) :
    List (String × Nat) :=
  arr.filterMap (fun e =>
    if engagement && !is_content_path (e.path.getD "/") then none
    else some (e.path.getD "/", e.count.getD 0))

/-- The (country, count) additions one `cd{d}` list performs. -/
def countryPairsOfList (arr : List CountryEntry) : List (String × Nat) :=
  arr.map (fun e => (e.country.getD "Unknown", e.count.getD 0))

/-- All path additions of the chunk job starting at `c` with outcome `o`. -/
def jobPathPairs (engagement : Bool) (days c : Nat)
    (o : QueryOutcome (Option ChunkZone)) : List (String × Nat) :=
  match graphql_query o with
  | .error _ => []
  | .ok none => []
  | .ok (some zone) =>
      (List.range' c (chunkEnd days c - c)).flatMap
        (fun d => pathPairsOfList engagement ((zone.pd d).getD []))

/-- All country additions of the chunk job starting at `c`. -/
def jobCountryPairs (days c : Nat) (o : QueryOutcome (Option ChunkZone)) :
    List (String × Nat) :=
  match graphql_query o with
  | .error _ => []
  | .ok none => []
  | .ok (some zone) =>
      (List.range' c (chunkEnd days c - c)).flatMap
        (fun d => countryPairsOfList ((zone.cd d).getD []))

/-- The chunk loop over an explicit job list (`pcMapsOf` runs it over the
planner's chunk starts, see `pcMapsOf_eq_foldJobs`). -/
def foldJobs (engagement : Bool) (days : Nat)
    (js : List (Nat × QueryOutcome (Option ChunkZone))) (init : PCMaps) : PCMaps :=
  js.foldl (fun maps j => processChunk engagement days j.1 j.2 maps) init

theorem foldJobs_cons (engagement : Bool) (days : Nat)
    (j : Nat × QueryOutcome (Option ChunkZone)) (t : List _) (init : PCMaps) :
    foldJobs engagement days (j :: t) init =
      foldJobs engagement days t (processChunk engagement days j.1 j.2 init) := rfl

/-- The source's chunk loop is `foldJobs` over the planner's chunk list. -/
theorem pcMapsOf_eq_foldJobs (days : Nat) (engagement : Bool)
    (co : Nat → QueryOutcome (Option ChunkZone)) :
    pcMapsOf days engagement co =
      foldJobs engagement days ((stepBy5 days).map (fun c => (c, co c))) ([], []) := by
  rw [pcMapsOf, foldJobs, List.foldl_map]

/-- Folding one `pd{d}` list is folding its (path, count) pairs. -/
theorem foldl_addPathEntry_eq (engagement : Bool) (arr : List PathEntry)
    (m : List (String × Nat)) :
    arr.foldl (addPathEntry engagement) m =
      (pathPairsOfList engagement arr).foldl (fun m p => bumpK m p.1 p.2) m := by
  induction arr generalizing m with
  | nil => rfl
  | cons e t ih =>
    rw [List.foldl_cons, ih]
    cases h : engagement && !is_content_path (e.path.getD "/") with
    | true =>
      have h1 : addPathEntry engagement m e = m := by
        unfold addPathEntry
        rw [if_pos h]
      have h2 : pathPairsOfList engagement (e :: t) = pathPairsOfList engagement t := by
        unfold pathPairsOfList
        rw [List.filterMap_cons_none]
        dsimp only
        rw [if_pos h]
      rw [h1, h2]
    | false =>
      have h1 : addPathEntry engagement m e =
          bumpK m (e.path.getD "/") (e.count.getD 0) := by
        unfold addPathEntry
        rw [if_neg (by simp [h])]
      have h2 : pathPairsOfList engagement (e :: t) =
          (e.path.getD "/", e.count.getD 0) :: pathPairsOfList engagement t := by
        unfold pathPairsOfList
        rw [List.filterMap_cons_some]
        dsimp only
        rw [if_neg (by simp [h])]
      rw [h1, h2, List.foldl_cons]

/-- Folding one `cd{d}` list is folding its (country, count) pairs. -/
theorem foldl_addCountryEntry_eq (arr : List CountryEntry)
    (m : List (String × Nat)) :
    arr.foldl addCountryEntry m =
      (countryPairsOfList arr).foldl (fun m p => bumpK m p.1 p.2) m := by
  induction arr generalizing m with
  | nil => rfl
  | cons e t ih =>
    rw [List.foldl_cons, ih]
    simp only [countryPairsOfList, List.map_cons, List.foldl_cons]
    rfl

theorem addDay_fst (engagement : Bool) (zone : ChunkZone) (maps : PCMaps) (d : Nat) :
    (addDay engagement zone maps d).1 =
      (pathPairsOfList engagement ((zone.pd d).getD [])).foldl
        (fun m p => bumpK m p.1 p.2) maps.1 := by
  cases hz : zone.pd d with
  | none => simp [addDay, hz, pathPairsOfList]
  | some arr =>
    simp only [addDay, hz, Option.getD_some]
    exact foldl_addPathEntry_eq engagement arr maps.1

theorem addDay_snd (engagement : Bool) (zone : ChunkZone) (maps : PCMaps) (d : Nat) :
    (addDay engagement zone maps d).2 =
      (countryPairsOfList ((zone.cd d).getD [])).foldl
        (fun m p => bumpK m p.1 p.2) maps.2 := by
  cases hz : zone.cd d with
  | none => simp [addDay, hz, countryPairsOfList]
  | some arr =>
    simp only [addDay, hz, Option.getD_some]
    exact foldl_addCountryEntry_eq arr maps.2

theorem foldl_addDay_fst (engagement : Bool) (zone : ChunkZone) (ds : List Nat)
    (maps : PCMaps) :
    ((ds.foldl (addDay engagement zone) maps).1) =
      (ds.flatMap (fun d => pathPairsOfList engagement ((zone.pd d).getD []))).foldl
        (fun m p => bumpK m p.1 p.2) maps.1 := by
  induction ds generalizing maps with
  | nil => rfl
  | cons d t ih =>
    rw [List.foldl_cons, ih, List.flatMap_cons, List.foldl_append, addDay_fst]

theorem foldl_addDay_snd (engagement : Bool) (zone : ChunkZone) (ds : List Nat)
    (maps : PCMaps) :
    ((ds.foldl (addDay engagement zone) maps).2) =
      (ds.flatMap (fun d => countryPairsOfList ((zone.cd d).getD []))).foldl
        (fun m p => bumpK m p.1 p.2) maps.2 := by
  induction ds generalizing maps with
  | nil => rfl
  | cons d t ih =>
    rw [List.foldl_cons, ih, List.flatMap_cons, List.foldl_append, addDay_snd]

theorem processChunk_fst (engagement : Bool) (days c : Nat)
    (o : QueryOutcome (Option ChunkZone)) (maps : PCMaps) :
    (processChunk engagement days c o maps).1 =
      (jobPathPairs engagement days c o).foldl
        (fun m p => bumpK m p.1 p.2) maps.1 := by
  unfold processChunk jobPathPairs
  rcases h : graphql_query o with e | oz
  · rfl
  · rcases oz with _ | zone
    · rfl
    · exact foldl_addDay_fst engagement zone _ maps

theorem processChunk_snd (engagement : Bool) (days c : Nat)
    (o : QueryOutcome (Option ChunkZone)) (maps : PCMaps) :
    (processChunk engagement days c o maps).2 =
      (jobCountryPairs days c o).foldl (fun m p => bumpK m p.1 p.2) maps.2 := by
  unfold processChunk jobCountryPairs
  rcases h : graphql_query o with e | oz
  · rfl
  · rcases oz with _ | zone
    · rfl
    · exact foldl_addDay_snd engagement zone _ maps

theorem foldJobs_fst (engagement : Bool) (days : Nat)
    (js : List (Nat × QueryOutcome (Option ChunkZone))) (init : PCMaps) :
    (foldJobs engagement days js init).1 =
      (js.flatMap (fun j => jobPathPairs engagement days j.1 j.2)).foldl
        (fun m p => bumpK m p.1 p.2) init.1 := by
  induction js generalizing init with
  | nil => rfl
  | cons j t ih =>
    rw [foldJobs_cons, ih, List.flatMap_cons, List.foldl_append, processChunk_fst]

theorem foldJobs_snd (engagement : Bool) (days : Nat)
    (js : List (Nat × QueryOutcome (Option ChunkZone))) (init : PCMaps) :
    (foldJobs engagement days js init).2 =
      (js.flatMap (fun j => jobCountryPairs days j.1 j.2)).foldl
        (fun m p => bumpK m p.1 p.2) init.2 := by
  induction js generalizing init with
  | nil => rfl
  | cons j t ih =>
    rw [foldJobs_cons, ih, List.flatMap_cons, List.foldl_append, processChunk_snd]

end Panel

namespace Panel

theorem lookupN_cons {K : Type} [DecidableEq K] (q : K × Nat) (t : List (K × Nat))
    (k : K) :
    lookupN (q :: t) k = if q.1 = k then some q.2 else lookupN t k := by
  by_cases h : q.1 = k
  · rw [lookupN, List.find?_cons_of_pos _ (by simp [h]), if_pos h]
    rfl
  · rw [lookupN, List.find?_cons_of_neg _ (by simp [h]), if_neg h]
    rfl

theorem lookupN_map_bump {K : Type} [DecidableEq K] (m : List (K × Nat)) (a : K)
    (v : Nat) (k : K) :
    lookupN (m.map (fun p => if p.1 = a then (p.1, p.2 + v) else p)) k =
      if k = a then (lookupN m k).map (fun x => x + v) else lookupN m k := by
  induction m with
  | nil => cases h : decide (k = a) <;> simp [lookupN]
  | cons q t ih =>
    rw [List.map_cons, lookupN_cons, lookupN_cons]
    by_cases hqa : q.1 = a
    · rw [if_pos hqa]
      by_cases hqk : q.1 = k
      · have hka : k = a := by rw [← hqk, hqa]
        simp [hqk, hka]
      · have hka : ¬ k = a := fun hh => hqk (hqa.trans hh.symm)
        simp [hqk, hka, ih]
    · rw [if_neg hqa]
      by_cases hqk : q.1 = k
      · have hka : ¬ k = a := fun hh => hqa (hqk.trans hh)
        simp [hqk, hka]
      · simp [hqk, ih]

theorem lookupN_bumpK {K : Type} [DecidableEq K] (m : List (K × Nat)) (a : K)
    (v : Nat) (k : K) :
    lookupN (bumpK m a v) k =
      if k = a then some ((lookupN m k).getD 0 + v) else lookupN m k := by
  unfold bumpK
  by_cases hany : m.any (fun p => p.1 = a) = true
  · rw [if_pos hany, lookupN_map_bump]
    by_cases hk : k = a
    · subst hk
      have hsome : (m.find? (fun p => decide (p.1 = k))).isSome := by
        rw [List.find?_isSome]
        obtain ⟨p, hp, hpk⟩ := List.any_eq_true.mp hany
        exact ⟨p, hp, hpk⟩
      obtain ⟨q, hq⟩ := Option.isSome_iff_exists.mp hsome
      have hlk : lookupN m k = some q.2 := by
        rw [lookupN, hq]
        rfl
      simp [hlk]
    · simp [hk]
  · rw [if_neg hany]
    have hfind : m.find? (fun p => decide (p.1 = a)) = none := by
      rw [List.find?_eq_none]
      intro x hx hxa
      exact hany (List.any_eq_true.mpr ⟨x, hx, hxa⟩)
    have hla : lookupN m a = none := by rw [lookupN, hfind]; rfl
    by_cases hk : k = a
    · subst hk
      rw [if_pos rfl, lookupN, List.find?_append, hfind, hla]
      simp [List.find?_cons]
    · rw [if_neg hk, lookupN, List.find?_append, lookupN]
      have h2 : ([(a, v)] : List (K × Nat)).find? (fun p => decide (p.1 = k)) =
          none := by
        rw [List.find?_cons_of_neg _
          (by simp only [decide_eq_true_eq]; exact fun hh => hk hh.symm)]
        rfl
      rw [h2]
      cases m.find? (fun p => decide (p.1 = k)) <;> rfl

/-- Lookup characterization of a fold of additions: the key's final value is
its initial value plus the sum of all matching pair counts, present iff it
was present or some pair touches it. -/
theorem lookupN_foldl_bump (ps : List (String × Nat)) (m : List (String × Nat))
    (k : String) :
    lookupN (ps.foldl (fun m p => bumpK m p.1 p.2) m) k =
      if ps.any (fun p => p.1 = k)
      then some ((lookupN m k).getD 0 +
        ((ps.filter (fun p => p.1 = k)).map (fun p => p.2)).sum)
      else lookupN m k := by
  induction ps generalizing m with
  | nil => simp
  | cons q t ih =>
    rw [List.foldl_cons, ih]
    by_cases hq : q.1 = k
    · have h1 : lookupN (bumpK m q.1 q.2) k =
          some ((lookupN m k).getD 0 + q.2) := by
        rw [lookupN_bumpK, if_pos hq.symm]
      have hany : (q :: t).any (fun p => p.1 = k) = true := by simp [hq]
      have hfq : (q :: t).filter (fun p => p.1 = k) =
          q :: t.filter (fun p => p.1 = k) := by
        simp [List.filter_cons, hq]
      rw [hany, hfq, if_pos rfl]
      by_cases ht : t.any (fun p => p.1 = k) = true
      · rw [if_pos ht, h1]
        simp only [Option.getD_some, List.map_cons, List.sum_cons]
        congr 1
        omega
      · rw [if_neg ht, h1]
        have hfil : t.filter (fun p => p.1 = k) = [] := by
          rw [List.filter_eq_nil_iff]
          intro x hx hxk
          exact ht (List.any_eq_true.mpr ⟨x, hx, hxk⟩)
        rw [hfil]
        simp
    · have h1 : lookupN (bumpK m q.1 q.2) k = lookupN m k := by
        rw [lookupN_bumpK, if_neg (fun hh => hq hh.symm)]
      have hany : (q :: t).any (fun p => p.1 = k) = t.any (fun p => p.1 = k) := by
        simp [List.any_cons, hq]
      have hfq : (q :: t).filter (fun p => p.1 = k) =
          t.filter (fun p => p.1 = k) := by
        simp [List.filter_cons, hq]
      rw [h1, hany, hfq]

/-- List `any` is invariant under permutation. -/
theorem any_eq_of_perm {α : Type} (p : α → Bool) {l₁ l₂ : List α}
    (h : l₁.Perm l₂) : l₁.any p = l₂.any p := by
  cases hb : l₂.any p
  · rw [List.any_eq_false] at hb ⊢
    intro x hx
    exact hb x (h.mem_iff.mp hx)
  · rw [List.any_eq_true] at hb ⊢
    obtain ⟨x, hx, hpx⟩ := hb
    exact ⟨x, h.mem_iff.mpr hx, hpx⟩

end Panel

namespace Panel

/-- C9 (amended): merging breakdown chunk responses into the path and
country accumulators is order-independent at the map level — folding any
permutation of the chunk jobs yields maps with identical contents, i.e.
the same count (or absence) at every key. -/
theorem merge_order_independent (engagement : Bool) (days : Nat)
    (js js' : List (Nat × QueryOutcome (Option ChunkZone))) (init : PCMaps)
    (hperm : js.Perm js') (k : String) :
    lookupN (foldJobs engagement days js init).1 k =
      lookupN (foldJobs engagement days js' init).1 k ∧
    lookupN (foldJobs engagement days js init).2 k =
      lookupN (foldJobs engagement days js' init).2 k := by
  have hp : (js.flatMap (fun j => jobPathPairs engagement days j.1 j.2)).Perm
      (js'.flatMap (fun j => jobPathPairs engagement days j.1 j.2)) :=
    hperm.flatMap_right _
  have hc : (js.flatMap (fun j => jobCountryPairs days j.1 j.2)).Perm
      (js'.flatMap (fun j => jobCountryPairs days j.1 j.2)) :=
    hperm.flatMap_right _
  constructor
  · rw [foldJobs_fst, foldJobs_fst, lookupN_foldl_bump, lookupN_foldl_bump,
      any_eq_of_perm _ hp, ((hp.filter _).map _).sum_eq]
  · rw [foldJobs_snd, foldJobs_snd, lookupN_foldl_bump, lookupN_foldl_bump,
      any_eq_of_perm _ hc, ((hc.filter _).map _).sum_eq]

/-- First chunk response of the C9 example: six tied content paths. -/
def cexZoneA : ChunkZone :=
  ⟨fun d => if d = 0 then
      some [⟨some "/blog/a", some 1⟩, ⟨some "/blog/b", some 1⟩,
        ⟨some "/blog/c", some 1⟩, ⟨some "/blog/d", some 1⟩,
        ⟨some "/blog/e", some 1⟩, ⟨some "/blog/f", some 1⟩]
    else none,
   fun _ => none⟩

/-- Second chunk response of the C9 example: five more tied paths. -/
def cexZoneB : ChunkZone :=
  ⟨fun d => if d = 5 then
      some [⟨some "/blog/g", some 1⟩, ⟨some "/blog/h", some 1⟩,
        ⟨some "/blog/i", some 1⟩, ⟨some "/blog/j", some 1⟩,
        ⟨some "/blog/k", some 1⟩]
    else none,
   fun _ => none⟩

/-- The two chunk jobs of a ten-day period, in planner order. -/
def cexJs : List (Nat × QueryOutcome (Option ChunkZone)) :=
  [(0, .response [] (some cexZoneA)), (5, .response [] (some cexZoneB))]

/-- The same two chunk jobs, swapped. -/
def cexJs' : List (Nat × QueryOutcome (Option ChunkZone)) :=
  [(5, .response [] (some cexZoneB)), (0, .response [] (some cexZoneA))]

/-- C9 counterexample: the two orders of the same chunk responses produce
path maps with the same contents (the association lists are permutations
of one another), yet the two `top_paths` lists are not multiset-equal —
eleven paths tie at count 1 and which one the truncation to 10 drops
depends on the enumeration order of the accumulator, which the source's
`HashMap` leaves unspecified. -/
theorem merge_order_top_paths_counterexample :
    cexJs.Perm cexJs' ∧
    ((foldJobs false 10 cexJs ([], [])).1).Perm
      ((foldJobs false 10 cexJs' ([], [])).1) ∧
    ¬ ((topPathsOf (foldJobs false 10 cexJs ([], [])).1).Perm
        (topPathsOf (foldJobs false 10 cexJs' ([], [])).1)) := by
  refine ⟨?_, by decide, by decide⟩
  unfold cexJs cexJs'
  exact List.Perm.swap _ _ _

/-- Witness for C9's amended theorem at the two concrete orders. -/
theorem merge_order_independent_witness :
    lookupN (foldJobs false 10 cexJs ([], [])).1 "/blog/a" =
      lookupN (foldJobs false 10 cexJs' ([], [])).1 "/blog/a" :=
  (merge_order_independent false 10 cexJs cexJs' ([], [])
    (by unfold cexJs cexJs'; exact List.Perm.swap _ _ _) "/blog/a").1

end Panel
